import Mathlib

/-!
Verification of the FastPay base types and server bootstrap code.

The development shallowly embeds `fastpay_core/src/base_types.rs` and
`fastpay/src/server.rs`. Machine integers are represented as `Nat` / `Int`
with explicit range hypotheses where the Rust types (`u64`, `i128`) impose
bounds; fallible Rust functions returning `Result` are embedded as `Except`.
External crates (ed25519-dalek, base64) and the parts of `fastpay_core` not
present here (the error enum declaration, `AuthorityState`, `AccountState`)
are modelled from the specification, as flagged in the corresponding doc
comments.
-/

set_option autoImplicit false

/-- Modelled from the spec: the `FastPayError` taxonomy of §7 (the enum is
declared in `fastpay_core/src/error.rs`, which is not among the provided
sources; the variants below are exactly the ones constructed by
`base_types.rs`). `InvalidSignature` carries a human-readable detail
string. -/
inductive FastPayError where
  | AmountOverflow
  | AmountUnderflow
  | BalanceOverflow
  | BalanceUnderflow
  | SequenceOverflow
  | SequenceUnderflow
  | InvalidSignature (error : String)
deriving DecidableEq, Repr

/-- `u64::MAX`. -/
def U64_MAX : Nat := 0xffffffffffffffff

/-- `i128::MAX`. -/
def I128_MAX : Int := 0x7fffffffffffffffffffffffffffffff

/-- `i128::MIN`. -/
def I128_MIN : Int := -0x80000000000000000000000000000000

/-- `Amount::zero` (base_types.rs). `Amount` wraps a `u64`, embedded as a
`Nat` constrained to `≤ U64_MAX` in theorems. -/
def Amount.zero : Nat := 0

/-- `Amount::try_add` (base_types.rs): `u64::checked_add`, mapping `None`
to `AmountOverflow`. -/
def Amount.try_add (a b : Nat) : Except FastPayError Nat :=
  if a + b ≤ U64_MAX then .ok (a + b) else .error .AmountOverflow

/-- `Amount::try_sub` (base_types.rs): `u64::checked_sub`, mapping `None`
to `AmountUnderflow`. -/
def Amount.try_sub (a b : Nat) : Except FastPayError Nat :=
  if b ≤ a then .ok (a - b) else .error .AmountUnderflow

/-- `Balance::zero` (base_types.rs). `Balance` wraps an `i128`, embedded as
an `Int` constrained to `[I128_MIN, I128_MAX]` in theorems. -/
def Balance.zero : Int := 0

/-- `Balance::max` (base_types.rs): `i128::MAX`. -/
def Balance.max : Int := I128_MAX

/-- `Balance::try_add` (base_types.rs): `i128::checked_add`, mapping `None`
to `BalanceOverflow` (in both overflow directions, as the source does). -/
def Balance.try_add (x y : Int) : Except FastPayError Int :=
  if I128_MIN ≤ x + y ∧ x + y ≤ I128_MAX then .ok (x + y) else .error .BalanceOverflow

/-- `Balance::try_sub` (base_types.rs): `i128::checked_sub`, mapping `None`
to `BalanceUnderflow` (in both overflow directions, as the source does). -/
def Balance.try_sub (x y : Int) : Except FastPayError Int :=
  if I128_MIN ≤ x - y ∧ x - y ≤ I128_MAX then .ok (x - y) else .error .BalanceUnderflow

/-- `SequenceNumber::new` (base_types.rs). -/
def SequenceNumber.new : Nat := 0

/-- `SequenceNumber::max` (base_types.rs): the literal `0x7fff_ffff_ffff_ffff`. -/
def SequenceNumber.max : Nat := 0x7fffffffffffffff

/-- `SequenceNumber::increment` (base_types.rs): `u64::checked_add(1)`,
mapping `None` to `SequenceOverflow`. -/
def SequenceNumber.increment (s : Nat) : Except FastPayError Nat :=
  if s + 1 ≤ U64_MAX then .ok (s + 1) else .error .SequenceOverflow

/-- `SequenceNumber::decrement` (base_types.rs): `u64::checked_sub(1)`,
mapping `None` to `SequenceUnderflow`. -/
def SequenceNumber.decrement (s : Nat) : Except FastPayError Nat :=
  if 1 ≤ s then .ok (s - 1) else .error .SequenceUnderflow

/-- The Coconut threshold computed by the `generate-all` subcommand
(server.rs, `ServerCommands::GenerateAll`):
`let threshold = (2 * authorities.len() + 1) / 3;`. -/
def generateAllCoconutThreshold (n : Nat) : Nat := (2 * n + 1) / 3

/-- Follows the spec's words (§3 Committee): `quorum_threshold = ⌊2N/3⌋ + 1`.
Stated here for comparison with `generateAllCoconutThreshold`. -/
def spec_quorum_threshold (N : Nat) : Nat := 2 * N / 3 + 1

/-- C1: for `u64` amounts in range, `try_add` returns `Ok (a+b)` exactly when
the sum fits in a `u64` and `AmountOverflow` otherwise; `try_sub` returns
`Ok (a-b)` exactly when `b ≤ a` and `AmountUnderflow` otherwise; for `i128`
balances in range, `try_add` fails only with `BalanceOverflow` and `try_sub`
only with `BalanceUnderflow`. The embedded operations are pure functions of
their operands, so the operands are never mutated. -/
theorem amount_balance_checked_arithmetic
    (a b : Nat) (x y : Int)
    (ha : a ≤ U64_MAX) (hb : b ≤ U64_MAX)
    (hx : I128_MIN ≤ x ∧ x ≤ I128_MAX) (hy : I128_MIN ≤ y ∧ y ≤ I128_MAX) :
    ((a + b ≤ U64_MAX → Amount.try_add a b = .ok (a + b))
      ∧ (U64_MAX < a + b → Amount.try_add a b = .error .AmountOverflow))
    ∧ ((b ≤ a → Amount.try_sub a b = .ok (a - b))
      ∧ (a < b → Amount.try_sub a b = .error .AmountUnderflow))
    ∧ ((I128_MIN ≤ x + y ∧ x + y ≤ I128_MAX → Balance.try_add x y = .ok (x + y))
      ∧ (¬(I128_MIN ≤ x + y ∧ x + y ≤ I128_MAX) →
          Balance.try_add x y = .error .BalanceOverflow))
    ∧ ((I128_MIN ≤ x - y ∧ x - y ≤ I128_MAX → Balance.try_sub x y = .ok (x - y))
      ∧ (¬(I128_MIN ≤ x - y ∧ x - y ≤ I128_MAX) →
          Balance.try_sub x y = .error .BalanceUnderflow)) := by
  refine ⟨⟨?_, ?_⟩, ⟨?_, ?_⟩, ⟨?_, ?_⟩, ⟨?_, ?_⟩⟩ <;>
    intro h <;> simp [Amount.try_add, Amount.try_sub, Balance.try_add, Balance.try_sub] <;>
    omega

/-- Witness for `amount_balance_checked_arithmetic` at concrete operands. -/
theorem amount_balance_checked_arithmetic_witness :
    (3 : Nat) ≤ U64_MAX ∧ (2 : Nat) ≤ U64_MAX
    ∧ (I128_MIN ≤ (5 : Int) ∧ (5 : Int) ≤ I128_MAX)
    ∧ (I128_MIN ≤ (7 : Int) ∧ (7 : Int) ≤ I128_MAX)
    ∧ (((3 : Nat) + 2 ≤ U64_MAX → Amount.try_add 3 2 = .ok (3 + 2))
        ∧ (U64_MAX < (3 : Nat) + 2 → Amount.try_add 3 2 = .error .AmountOverflow))
    ∧ (((2 : Nat) ≤ 3 → Amount.try_sub 3 2 = .ok (3 - 2))
        ∧ ((3 : Nat) < 2 → Amount.try_sub 3 2 = .error .AmountUnderflow))
    ∧ ((I128_MIN ≤ (5 : Int) + 7 ∧ (5 : Int) + 7 ≤ I128_MAX →
          Balance.try_add 5 7 = .ok (5 + 7))
        ∧ (¬(I128_MIN ≤ (5 : Int) + 7 ∧ (5 : Int) + 7 ≤ I128_MAX) →
          Balance.try_add 5 7 = .error .BalanceOverflow))
    ∧ ((I128_MIN ≤ (5 : Int) - 7 ∧ (5 : Int) - 7 ≤ I128_MAX →
          Balance.try_sub 5 7 = .ok (5 - 7))
        ∧ (¬(I128_MIN ≤ (5 : Int) - 7 ∧ (5 : Int) - 7 ≤ I128_MAX) →
          Balance.try_sub 5 7 = .error .BalanceUnderflow)) := by
  refine ⟨by decide, by decide, ⟨by decide, by decide⟩, ⟨by decide, by decide⟩, ?_⟩
  have h := amount_balance_checked_arithmetic 3 2 5 7 (by decide) (by decide)
    ⟨by decide, by decide⟩ ⟨by decide, by decide⟩
  exact ⟨h.1, h.2.1, h.2.2.1, h.2.2.2⟩

/-- C2 counterexample: with `n = 2 ≥ 1` authorities, the `generate-all`
threshold `(2n+1)/3 = 1` differs from the quorum formula `⌊2n/3⌋+1 = 2`
that the claim states. -/
theorem generateAll_threshold_ne_quorum_at_two :
    1 ≤ 2 ∧ generateAllCoconutThreshold 2 = 1 ∧ spec_quorum_threshold 2 = 2
      ∧ generateAllCoconutThreshold 2 ≠ spec_quorum_threshold 2 := by
  decide

/-- C2 amended: for every `n ≥ 1`, the Coconut threshold passed to the
trusted dealer is `(2n+1)/3` with integer division; this coincides with the
quorum formula `⌊2n/3⌋+1` exactly when `n ≡ 1 (mod 3)` and is one less than
it otherwise. -/
theorem generateAll_threshold_characterization (n : Nat) (h : 1 ≤ n) :
    generateAllCoconutThreshold n =
      (if n % 3 = 1 then spec_quorum_threshold n else spec_quorum_threshold n - 1) := by
  unfold generateAllCoconutThreshold spec_quorum_threshold
  split <;> omega

/-- Witness for `generateAll_threshold_characterization` at `n = 5`. -/
theorem generateAll_threshold_characterization_witness :
    1 ≤ 5 ∧ generateAllCoconutThreshold 5 =
      (if 5 % 3 = 1 then spec_quorum_threshold 5 else spec_quorum_threshold 5 - 1) :=
  ⟨by decide, generateAll_threshold_characterization 5 (by decide)⟩

/-- C3 counterexample: at `s = SequenceNumber::max() = 2^63 - 1`,
`increment` succeeds and returns `2^63`, which exceeds the stated maximum,
contradicting the claim that a successful increment is never greater than
`SequenceNumber::max()`. -/
theorem sequence_increment_exceeds_max :
    SequenceNumber.increment SequenceNumber.max = .ok 0x8000000000000000
      ∧ SequenceNumber.max < 0x8000000000000000 := by
  constructor
  · simp [SequenceNumber.increment, SequenceNumber.max, U64_MAX]
  · decide

/-- C3 amended: `SequenceNumber::new() = 0` and `SequenceNumber::max() =
2^63 - 1`; for every `u64` sequence number `s`, `increment` fails with
`SequenceOverflow` exactly when `s = 2^64 - 1` and otherwise returns `s + 1`,
which is strictly greater than `s`; the result stays `≤ SequenceNumber::max()`
only when `s < SequenceNumber::max()` (the code does not enforce the stated
maximum at the boundary); `decrement` fails with `SequenceUnderflow` exactly
when `s = 0` and otherwise returns `s - 1`. -/
theorem sequence_number_increment_decrement (s : Nat) (hs : s ≤ U64_MAX) :
    SequenceNumber.new = 0 ∧ SequenceNumber.max = 2 ^ 63 - 1
    ∧ (s = U64_MAX → SequenceNumber.increment s = .error .SequenceOverflow)
    ∧ (s < U64_MAX → SequenceNumber.increment s = .ok (s + 1) ∧ s < s + 1)
    ∧ (s < SequenceNumber.max →
        ∀ t, SequenceNumber.increment s = .ok t → t ≤ SequenceNumber.max)
    ∧ (SequenceNumber.decrement s = .error .SequenceUnderflow ↔ s = 0)
    ∧ (0 < s → SequenceNumber.decrement s = .ok (s - 1)) := by
  refine ⟨rfl, by decide, ?_, ?_, ?_, ?_, ?_⟩
  · intro h
    simp [SequenceNumber.increment, h, U64_MAX]
  · intro h
    refine ⟨?_, by omega⟩
    simp only [SequenceNumber.increment, if_pos (by omega : s + 1 ≤ U64_MAX)]
  · intro h t ht
    simp only [SequenceNumber.increment] at ht
    by_cases hc : s + 1 ≤ U64_MAX
    · rw [if_pos hc] at ht
      have : t = s + 1 := by injection ht; omega
      revert h
      simp [SequenceNumber.max, this]
      omega
    · rw [if_neg hc] at ht
      exact absurd ht (by simp)
  · constructor
    · intro h
      by_cases hc : 1 ≤ s
      · rw [SequenceNumber.decrement, if_pos hc] at h
        exact absurd h (by simp)
      · omega
    · intro h
      simp [SequenceNumber.decrement, h]
  · intro h
    simp only [SequenceNumber.decrement, if_pos (by omega : 1 ≤ s)]

/-- Witness for `sequence_number_increment_decrement` at `s = 5`. -/
theorem sequence_number_increment_decrement_witness :
    (5 : Nat) ≤ U64_MAX
    ∧ (SequenceNumber.new = 0 ∧ SequenceNumber.max = 2 ^ 63 - 1
    ∧ ((5 : Nat) = U64_MAX → SequenceNumber.increment 5 = .error .SequenceOverflow)
    ∧ ((5 : Nat) < U64_MAX → SequenceNumber.increment 5 = .ok (5 + 1) ∧ (5 : Nat) < 5 + 1)
    ∧ ((5 : Nat) < SequenceNumber.max →
        ∀ t, SequenceNumber.increment 5 = .ok t → t ≤ SequenceNumber.max)
    ∧ (SequenceNumber.decrement 5 = .error .SequenceUnderflow ↔ (5 : Nat) = 0)
    ∧ ((0 : Nat) < 5 → SequenceNumber.decrement 5 = .ok (5 - 1))) :=
  ⟨by decide, sequence_number_increment_decrement 5 (by decide)⟩

/-- Modelled from the spec: an ed25519-dalek public key (§3 Address: a
32-byte Ed25519 public key). Byte strings are `List Nat`; parse failures
beyond the length check (invalid curve points) are abstracted away. -/
structure DalekPublicKey where
  bytes : List Nat
deriving DecidableEq, Repr

/-- Modelled from the spec: an ed25519-dalek keypair (secret scalar bytes
plus the derived public key). -/
structure DalekKeypair where
  secret : List Nat
  public : DalekPublicKey
deriving DecidableEq, Repr

/-- Modelled from the spec: an Ed25519 signature, idealized as the pair of
the signer's public-key bytes and the signed message, so that verification
succeeds exactly for the key and message it was produced with. -/
structure DalekSignature where
  signer : List Nat
  message : List Nat
deriving DecidableEq, Repr

/-- Modelled from the spec: `dalek::PublicKey::from_bytes`, which fails on
byte strings of the wrong length. -/
def DalekPublicKey.from_bytes (b : List Nat) : Except String DalekPublicKey :=
  if b.length = 32 then .ok ⟨b⟩ else .error "invalid public key length"

/-- Modelled from the spec: `dalek::Keypair::sign` over a message. -/
def dalekSign (kp : DalekKeypair) (message : List Nat) : DalekSignature :=
  ⟨kp.public.bytes, message⟩

/-- Modelled from the spec: `dalek::PublicKey::verify`. -/
def dalekVerify (pk : DalekPublicKey) (message : List Nat) (sig : DalekSignature) :
    Except String Unit :=
  if sig.signer = pk.bytes ∧ sig.message = message then .ok ()
  else .error "signature error"

/-- Modelled from the spec: `dalek::verify_batch`, a single batched check
that succeeds exactly when the three slices have equal length and every
triple verifies individually. -/
def dalekVerifyBatch (messages : List (List Nat)) (signatures : List DalekSignature)
    (public_keys : List DalekPublicKey) : Except String Unit :=
  if messages.length = signatures.length ∧ signatures.length = public_keys.length
      ∧ ((messages.zip (signatures.zip public_keys)).all
          (fun t => match dalekVerify t.2.2 t.1 t.2.1 with
            | .ok _ => true
            | .error _ => false) = true)
  then .ok () else .error "batch verification failed"

/-- `EdPublicKeyBytes` (base_types.rs): a 32-byte Ed25519 public key; the
byte array `[u8; 32]` is embedded as a `List Nat` with a length-32
hypothesis where it matters. -/
structure EdPublicKeyBytes where
  bytes : List Nat
deriving DecidableEq, Repr

/-- `FastPayAddress` (base_types.rs): alias of `EdPublicKeyBytes`. -/
abbrev FastPayAddress := EdPublicKeyBytes

/-- `SecretKey` (base_types.rs): a wrapper around a dalek keypair. -/
structure SecretKey where
  kp : DalekKeypair
deriving DecidableEq, Repr

/-- Modelled from the spec: `dalek::Keypair::generate` from the OS RNG.
Randomness is made explicit as a seed; the secret is the seed padded or
truncated to 32 bytes and public-key derivation is an abstract
length-preserving map. -/
def dalekGenerate (seed : List Nat) : DalekKeypair :=
  let sec := (seed ++ List.replicate 32 0).take 32
  ⟨sec, ⟨sec.reverse⟩⟩

/-- `get_key_pair` (base_types.rs): returns the public key bytes as the
address together with the wrapped keypair. -/
def get_key_pair (seed : List Nat) : FastPayAddress × SecretKey :=
  let keypair := dalekGenerate seed
  (⟨keypair.public.bytes⟩, ⟨keypair⟩)

/-- `Signature` (base_types.rs): a wrapper around a dalek signature. -/
structure Signature where
  sig : DalekSignature
deriving DecidableEq, Repr

/-- `Signature::new` (base_types.rs): signs `value.digest()` — never the raw
structure — with the secret keypair. The `Digestible` trait is embedded as
an explicit `digest` function argument. -/
def Signature.new {T : Type} (digest : T → List Nat) (value : T) (secret : SecretKey) :
    Signature :=
  ⟨dalekSign secret.kp (digest value)⟩

/-- `Signature::check_internal` (base_types.rs): parses the author's public
key bytes (the `?` on `from_bytes`) and verifies the signature over
`value.digest()`. -/
def Signature.check_internal {T : Type} (digest : T → List Nat) (self : Signature)
    (value : T) (author : FastPayAddress) : Except String Unit :=
  match DalekPublicKey.from_bytes author.bytes with
  | .error e => .error e
  | .ok public_key => dalekVerify public_key (digest value) self.sig

/-- `Signature::check` (base_types.rs): `check_internal`, with any dalek
error mapped to `FastPayError::InvalidSignature` carrying the formatted
error string. -/
def Signature.check {T : Type} (digest : T → List Nat) (self : Signature)
    (value : T) (author : FastPayAddress) : Except FastPayError Unit :=
  match Signature.check_internal digest self value author with
  | .ok _ => .ok ()
  | .error e => .error (.InvalidSignature e)

/-- The vote-collection loop of `Signature::verify_batch_internal`
(base_types.rs): one message entry, one signature and one parsed public key
per vote, failing on the first public key that does not parse. -/
def collectBatchKeys (msg : List Nat) :
    List (FastPayAddress × Signature) →
      Except String (List (List Nat) × List DalekSignature × List DalekPublicKey)
  | [] => .ok ([], [], [])
  | (addr, sig) :: rest =>
    match DalekPublicKey.from_bytes addr.bytes with
    | .error e => .error e
    | .ok pk =>
      match collectBatchKeys msg rest with
      | .error e => .error e
      | .ok (ms, ss, ps) => .ok (msg :: ms, sig.sig :: ss, pk :: ps)

/-- `Signature::verify_batch_internal` (base_types.rs): collects the per-vote
slices over `value.digest()` and performs a single `dalek::verify_batch`. -/
def Signature.verify_batch_internal {T : Type} (digest : T → List Nat) (value : T)
    (votes : List (FastPayAddress × Signature)) : Except String Unit :=
  match collectBatchKeys (digest value) votes with
  | .error e => .error e
  | .ok (messages, signatures, public_keys) =>
    dalekVerifyBatch messages signatures public_keys

/-- `Signature::verify_batch` (base_types.rs): `verify_batch_internal`, with
any dalek error mapped to `FastPayError::InvalidSignature` carrying the
formatted error string. -/
def Signature.verify_batch {T : Type} (digest : T → List Nat) (value : T)
    (votes : List (FastPayAddress × Signature)) : Except FastPayError Unit :=
  match Signature.verify_batch_internal digest value votes with
  | .ok _ => .ok ()
  | .error e => .error (.InvalidSignature e)

/-- Modelled from the spec: `dalek::SecretKey::from_bytes`, which checks the
length of the secret bytes. -/
def dalekSecretKeyFromBytes (b : List Nat) : Except String (List Nat) :=
  if b.length = 32 then .ok b else .error "invalid secret key length"

/-- Result of `SecretKey::copy`: the `.unwrap()` calls in the source panic
when the wrapped byte strings have the wrong length, so the embedding makes
the panic explicit. -/
inductive SecretKeyCopyResult where
  | ok (key : SecretKey)
  | panics
deriving DecidableEq, Repr

/-- `SecretKey::copy` (base_types.rs): rebuilds the keypair from its secret
and public bytes, unwrapping both parses. -/
def SecretKey.copy (s : SecretKey) : SecretKeyCopyResult :=
  match dalekSecretKeyFromBytes s.kp.secret, DalekPublicKey.from_bytes s.kp.public.bytes with
  | .ok sec, .ok pk => .ok ⟨⟨sec, pk⟩⟩
  | _, _ => .panics

/-- Modelled from the spec: `dalek::Keypair::to_bytes` is the secret bytes
followed by the public bytes. -/
def DalekKeypair.to_bytes (kp : DalekKeypair) : List Nat :=
  kp.secret ++ kp.public.bytes

/-- The `Serialize` impl for `SecretKey` (base_types.rs): base64 of
`keypair.to_bytes()`. The base64 encoder is an explicit argument, as it is
an external crate. -/
def SecretKey.serialize {σ : Type} (benc : List Nat → σ) (s : SecretKey) : σ :=
  benc s.kp.to_bytes

/-- The public key produced by the modelled dalek key generation has 32
bytes. -/
theorem dalekGenerate_public_length (seed : List Nat) :
    (dalekGenerate seed).public.bytes.length = 32 := by
  simp [dalekGenerate]

/-- C4: for every digestible value and every keypair produced by
`get_key_pair`, `Signature::new(v, sk).check(v, addr)` returns `Ok(())`; and
both signing and checking depend on the value only through its digest, so
two values with equal digests produce equal signatures and equal check
results. -/
theorem signature_sign_check_over_digest (T : Type) (digest : T → List Nat)
    (seed : List Nat) (v w : T) (sk : SecretKey) (sig : Signature)
    (a : FastPayAddress) (hvw : digest v = digest w) :
    ((Signature.new digest v (get_key_pair seed).2).check digest v (get_key_pair seed).1
        = Except.ok ())
    ∧ Signature.new digest v sk = Signature.new digest w sk
    ∧ sig.check digest v a = sig.check digest w a := by
  refine ⟨?_, ?_, ?_⟩
  · have hlen := dalekGenerate_public_length seed
    simp [Signature.new, Signature.check, Signature.check_internal, get_key_pair,
      dalekSign, dalekVerify, DalekPublicKey.from_bytes, hlen]
  · simp [Signature.new, dalekSign, hvw]
  · cases h : DalekPublicKey.from_bytes a.bytes with
    | error e => simp [Signature.check, Signature.check_internal, h]
    | ok pk => simp [Signature.check, Signature.check_internal, dalekVerify, h, hvw]

/-- Witness for `signature_sign_check_over_digest` at a concrete digest
function, seed, values, keypair, signature and address. -/
theorem signature_sign_check_over_digest_witness :
    ((fun _ : Nat => [0]) 1 = (fun _ : Nat => [0]) 2)
    ∧ (((Signature.new (fun _ : Nat => [0]) 1 (get_key_pair [7]).2).check
          (fun _ : Nat => [0]) 1 (get_key_pair [7]).1 = Except.ok ())
      ∧ Signature.new (fun _ : Nat => [0]) 1 ⟨⟨[1], ⟨[2]⟩⟩⟩
          = Signature.new (fun _ : Nat => [0]) 2 ⟨⟨[1], ⟨[2]⟩⟩⟩
      ∧ Signature.check (fun _ : Nat => [0]) ⟨⟨[3], [4]⟩⟩ 1 ⟨[5]⟩
          = Signature.check (fun _ : Nat => [0]) ⟨⟨[3], [4]⟩⟩ 2 ⟨[5]⟩) :=
  ⟨rfl, signature_sign_check_over_digest Nat (fun _ => [0]) [7] 1 2
    ⟨⟨[1], ⟨[2]⟩⟩⟩ ⟨⟨[3], [4]⟩⟩ ⟨[5]⟩ rfl⟩

/-- C5: `verify_batch` succeeds exactly when the underlying single batched
dalek check (`verify_batch_internal`, over `digest(value)`) succeeds, and on
any failure — a public key that does not parse or a failed batch check — it
returns `InvalidSignature` carrying a detail string and never any other
error kind. -/
theorem verify_batch_invalid_signature_only (T : Type) (digest : T → List Nat)
    (value : T) (votes : List (FastPayAddress × Signature)) :
    (Signature.verify_batch digest value votes = .ok ()
        ↔ Signature.verify_batch_internal digest value votes = .ok ())
    ∧ (Signature.verify_batch digest value votes = .ok ()
      ∨ ∃ d, Signature.verify_batch digest value votes
          = .error (FastPayError.InvalidSignature d)) := by
  cases h : Signature.verify_batch_internal digest value votes with
  | ok u =>
    cases u
    exact ⟨by simp [Signature.verify_batch, h],
      Or.inl (by simp [Signature.verify_batch, h])⟩
  | error e =>
    exact ⟨by simp [Signature.verify_batch, h],
      Or.inr ⟨e, by simp [Signature.verify_batch, h]⟩⟩

/-- C10: for every `SecretKey` whose wrapped byte strings have the dalek
lengths, `copy` succeeds and returns a key extensionally equal to the
original — so serializing the original and the copy produces the identical
string — and, the embedding being pure, the original is unchanged. -/
theorem secret_key_copy_preserves_serialization (σ : Type) (benc : List Nat → σ)
    (s : SecretKey) (h1 : s.kp.secret.length = 32)
    (h2 : s.kp.public.bytes.length = 32) :
    SecretKey.copy s = SecretKeyCopyResult.ok s
    ∧ ∀ t, SecretKey.copy s = SecretKeyCopyResult.ok t →
        SecretKey.serialize benc t = SecretKey.serialize benc s := by
  have hc : SecretKey.copy s = SecretKeyCopyResult.ok s := by
    obtain ⟨⟨sec, ⟨pub⟩⟩⟩ := s
    simp [SecretKey.copy, dalekSecretKeyFromBytes, DalekPublicKey.from_bytes, h1, h2]
  refine ⟨hc, fun t ht => ?_⟩
  rw [hc] at ht
  cases ht
  rfl

/-- Witness for `secret_key_copy_preserves_serialization` at a concrete
keypair with 32-byte secret and public parts. -/
theorem secret_key_copy_preserves_serialization_witness :
    (List.replicate 32 1).length = 32 ∧ (List.replicate 32 2).length = 32
    ∧ SecretKey.copy ⟨⟨List.replicate 32 1, ⟨List.replicate 32 2⟩⟩⟩
        = SecretKeyCopyResult.ok ⟨⟨List.replicate 32 1, ⟨List.replicate 32 2⟩⟩⟩ :=
  ⟨by simp, by simp,
    (secret_key_copy_preserves_serialization (List Nat) (fun l => l)
      ⟨⟨List.replicate 32 1, ⟨List.replicate 32 2⟩⟩⟩ (by simp) (by simp)).1⟩

/-- Result of `decode_address` (base_types.rs): the Rust function returns a
`Result`, but the slice `&value[..PUBLIC_KEY_LENGTH]` taken for
`copy_from_slice` panics when fewer than 32 bytes were decoded, so the
embedding makes the panic a distinct outcome. -/
inductive DecodeAddressResult where
  | ok (key : EdPublicKeyBytes)
  | err (e : String)
  | panics
deriving DecidableEq, Repr

/-- `encode_address` (base_types.rs): base64 of the 32 key bytes. The base64
encoder of the external crate is an explicit argument with abstract output
type `σ`. -/
def encode_address {σ : Type} (benc : List Nat → σ) (key : EdPublicKeyBytes) : σ :=
  benc key.bytes

/-- `decode_address` (base_types.rs): base64-decode (propagating decode
errors with `?`), then copy the first `PUBLIC_KEY_LENGTH = 32` decoded bytes
into the address. Longer inputs are silently truncated; shorter inputs make
the slice panic. The base64 decoder of the external crate is an explicit
argument. -/
def decode_address {σ : Type} (bdec : σ → Except String (List Nat)) (s : σ) :
    DecodeAddressResult :=
  match bdec s with
  | .error e => .err e
  | .ok value => if 32 ≤ value.length then .ok ⟨value.take 32⟩ else .panics

/-- `address_as_base64` (base_types.rs): serializes exactly the string
produced by `encode_address`. -/
def address_as_base64 {σ : Type} (benc : List Nat → σ) (key : EdPublicKeyBytes) : σ :=
  encode_address benc key

/-- `address_from_base64` (base_types.rs): deserializes the string and
applies `decode_address`; error and panic outcomes pass through. -/
def address_from_base64 {σ : Type} (bdec : σ → Except String (List Nat)) (s : σ) :
    DecodeAddressResult :=
  decode_address bdec s

/-- C7: for every 32-byte public key, decoding the encoding returns the key
unchanged, and `address_from_base64` inverts `address_as_base64`, for any
base64 implementation in which decoding inverts encoding. -/
theorem address_base64_round_trip (σ : Type) (benc : List Nat → σ)
    (bdec : σ → Except String (List Nat))
    (hround : ∀ l, bdec (benc l) = .ok l)
    (key : EdPublicKeyBytes) (hlen : key.bytes.length = 32) :
    decode_address bdec (encode_address benc key) = DecodeAddressResult.ok key
    ∧ address_from_base64 bdec (address_as_base64 benc key)
        = DecodeAddressResult.ok key := by
  have htake : key.bytes.take 32 = key.bytes := List.take_of_length_le (by omega)
  constructor <;>
    simp [decode_address, address_from_base64, address_as_base64, encode_address,
      hround, hlen, htake]

/-- Witness for `address_base64_round_trip` with the identity encoding on
byte lists and an all-zero 32-byte key. -/
theorem address_base64_round_trip_witness :
    (⟨List.replicate 32 0⟩ : EdPublicKeyBytes).bytes.length = 32
    ∧ decode_address (fun l : List Nat => Except.ok l)
        (encode_address (fun l : List Nat => l) ⟨List.replicate 32 0⟩)
        = DecodeAddressResult.ok ⟨List.replicate 32 0⟩ :=
  ⟨by simp, (address_base64_round_trip (List Nat) (fun l => l)
    (fun l => Except.ok l) (fun l => rfl) ⟨List.replicate 32 0⟩ (by simp)).1⟩

/-- C8: whenever base64 decoding succeeds with strictly more than 32 bytes,
`decode_address` does not reject the input: it returns `Ok` of the first 32
decoded bytes, silently truncating. -/
theorem decode_address_truncates_long_inputs (σ : Type)
    (bdec : σ → Except String (List Nat)) (s : σ) (value : List Nat)
    (hdec : bdec s = .ok value) (hlen : 32 < value.length) :
    decode_address bdec s = DecodeAddressResult.ok ⟨value.take 32⟩ := by
  simp only [decode_address, hdec]
  rw [if_pos (by omega)]

/-- Witness for `decode_address_truncates_long_inputs` on a decoded value of
33 bytes. -/
theorem decode_address_truncates_long_inputs_witness :
    (fun _ : Unit => (Except.ok (List.replicate 33 1) : Except String (List Nat))) ()
        = Except.ok (List.replicate 33 1)
    ∧ 32 < (List.replicate 33 1).length
    ∧ decode_address
        (fun _ : Unit => (Except.ok (List.replicate 33 1) : Except String (List Nat))) ()
        = DecodeAddressResult.ok ⟨(List.replicate 33 1).take 32⟩ :=
  ⟨rfl, by simp, decode_address_truncates_long_inputs Unit
    (fun _ => Except.ok (List.replicate 33 1)) () (List.replicate 33 1) rfl (by simp)⟩

/-- C9: whenever base64 decoding succeeds with strictly fewer than 32 bytes,
`decode_address` panics (the 32-byte slice is out of bounds) instead of
returning the error branch of its `Result`. -/
theorem decode_address_panics_on_short_inputs (σ : Type)
    (bdec : σ → Except String (List Nat)) (s : σ) (value : List Nat)
    (hdec : bdec s = .ok value) (hlen : value.length < 32) :
    decode_address bdec s = DecodeAddressResult.panics := by
  simp only [decode_address, hdec]
  rw [if_neg (by omega)]

/-- Witness for `decode_address_panics_on_short_inputs` on a decoded value
of 5 bytes. -/
theorem decode_address_panics_on_short_inputs_witness :
    (fun _ : Unit => (Except.ok (List.replicate 5 1) : Except String (List Nat))) ()
        = Except.ok (List.replicate 5 1)
    ∧ (List.replicate 5 1).length < 32
    ∧ decode_address
        (fun _ : Unit => (Except.ok (List.replicate 5 1) : Except String (List Nat))) ()
        = DecodeAddressResult.panics :=
  ⟨rfl, by simp, decode_address_panics_on_short_inputs Unit
    (fun _ => Except.ok (List.replicate 5 1)) () (List.replicate 5 1) rfl (by simp)⟩

/-- Modelled from the spec: the per-account ledger record of §3
(`fastpay_core/account.rs` is not among the sources). `AccountState::new`
creates it with the given owner and balance, sequence number zero, no
pending vote and empty logs; certificates are abstracted as opaque
identifiers. -/
structure AccountState (α : Type) where
  owner : α
  balance : Int
  next_sequence : Nat
  pending_confirmation : Option Nat
  confirmed_log : List Nat
  synchronization_log : List Nat
  received_log : List Nat
deriving DecidableEq, Repr

/-- Modelled from the spec: `AccountState::new(owner, balance)`. -/
def AccountState.new {α : Type} (owner : α) (balance : Int) : AccountState α :=
  ⟨owner, balance, 0, none, [], [], []⟩

/-- Modelled from the spec: `AuthorityState::get_shard` — §4.F shard
routing, `shard_of(account_id) = stable_hash(account_id) mod num_shards`;
the stable hash (`fastpay_core/authority.rs`, not among the sources) is an
explicit argument. -/
def AuthorityState.get_shard {ι : Type} (stable_hash : ι → Nat) (num_shards : Nat)
    (id : ι) : Nat :=
  stable_hash id % num_shards

/-- An authority shard's account map, as a partial function from account
ids. `AuthorityState::new_shard` starts it empty (modelled from the spec). -/
def AccountsMap (ι α : Type) : Type := ι → Option (AccountState α)

/-- The empty accounts map of a freshly created shard state. -/
def AccountsMap.empty (ι α : Type) : AccountsMap ι α := fun _ => none

/-- `state.accounts.insert(id, client)`: functional map update. -/
def AccountsMap.insert {ι α : Type} [DecidableEq ι] (m : AccountsMap ι α) (k : ι)
    (v : AccountState α) : AccountsMap ι α :=
  fun x => if x = k then some v else m x

/-- The data assembled by `make_shard_server` (server.rs): the shard index
and the accounts map of the shard's authority state. Config-file reading and
the network wrapper are external collaborators, so the configuration arrives
already parsed and the returned `network::Server` is represented by the
state it wraps. -/
structure ShardServer (ι α : Type) where
  shard : Nat
  accounts : AccountsMap ι α

/-- The body of the genesis loop in `make_shard_server` (server.rs): skip
the entry when `AuthorityState::get_shard(num_shards, id) != shard`, else
insert `AccountState::new(owner, balance)` at `id`. -/
def genesisStep {ι α : Type} [DecidableEq ι] (stable_hash : ι → Nat)
    (num_shards shard : Nat) (m : AccountsMap ι α) (entry : ι × α × Int) :
    AccountsMap ι α :=
  if AuthorityState.get_shard stable_hash num_shards entry.1 ≠ shard then m
  else m.insert entry.1 (AccountState.new entry.2.1 entry.2.2)

/-- The genesis loop of `make_shard_server` (server.rs) over
`InitialStateConfig.accounts`, starting from the empty map of
`AuthorityState::new_shard`. -/
def loadInitialAccounts {ι α : Type} [DecidableEq ι] (stable_hash : ι → Nat)
    (num_shards shard : Nat) (accounts : List (ι × α × Int)) : AccountsMap ι α :=
  accounts.foldl (genesisStep stable_hash num_shards shard) (AccountsMap.empty ι α)

/-- `make_shard_server` (server.rs): the server for one shard, holding the
shard's authority state with the genesis accounts of that shard. -/
def make_shard_server {ι α : Type} [DecidableEq ι] (stable_hash : ι → Nat)
    (num_shards shard : Nat) (accounts : List (ι × α × Int)) : ShardServer ι α :=
  ⟨shard, loadInitialAccounts stable_hash num_shards shard accounts⟩

/-- `make_servers` (server.rs): one shard server for every shard in
`0 .. num_shards`. -/
def make_servers {ι α : Type} [DecidableEq ι] (stable_hash : ι → Nat)
    (num_shards : Nat) (accounts : List (ι × α × Int)) : List (ShardServer ι α) :=
  (List.range num_shards).map
    (fun shard => make_shard_server stable_hash num_shards shard accounts)

/-- Ids that appear in no config entry are absent from the loaded map. -/
theorem genesis_foldl_absent {ι α : Type} [DecidableEq ι] (stable_hash : ι → Nat)
    (num_shards shard : Nat) :
    ∀ (accounts : List (ι × α × Int)) (m : AccountsMap ι α) (id : ι),
      (∀ o b, (id, o, b) ∉ accounts) →
      accounts.foldl (genesisStep stable_hash num_shards shard) m id = m id := by
  intro accounts
  induction accounts with
  | nil => intro m id h; rfl
  | cons e rest ih =>
    intro m id h
    have hne : e.1 ≠ id := by
      intro hq
      apply h e.2.1 e.2.2
      rw [← hq]
      exact List.mem_cons_self _ _
    rw [List.foldl_cons,
      ih _ id (fun o b hmem => h o b (List.mem_cons_of_mem e hmem))]
    by_cases hc : AuthorityState.get_shard stable_hash num_shards e.1 ≠ shard
    · simp [genesisStep, hc]
    · simp [genesisStep, hc, AccountsMap.insert, Ne.symm hne]

/-- A config entry with a unique id loads exactly when its shard matches. -/
theorem genesis_foldl_mem {ι α : Type} [DecidableEq ι] (stable_hash : ι → Nat)
    (num_shards shard : Nat) :
    ∀ (accounts : List (ι × α × Int)) (m : AccountsMap ι α) (id : ι) (o : α) (b : Int),
      (accounts.map Prod.fst).Nodup → (id, o, b) ∈ accounts →
      accounts.foldl (genesisStep stable_hash num_shards shard) m id =
        (if AuthorityState.get_shard stable_hash num_shards id = shard
          then some (AccountState.new o b) else m id) := by
  intro accounts
  induction accounts with
  | nil => intro m id o b hnd hmem; cases hmem
  | cons e rest ih =>
    obtain ⟨eid, eo, eb⟩ := e
    intro m id o b hnd hmem
    have hnd' : eid ∉ rest.map Prod.fst ∧ (rest.map Prod.fst).Nodup := by
      rw [List.map_cons, List.nodup_cons] at hnd
      exact hnd
    rw [List.foldl_cons]
    rcases List.mem_cons.mp hmem with heq | hmem2
    · injection heq with h1 h23
      injection h23 with h2 h3
      subst h1
      subst h2
      subst h3
      have hrest : ∀ o2 b2, (id, o2, b2) ∉ rest := by
        intro o2 b2 hmem3
        exact hnd'.1 (List.mem_map.mpr ⟨(id, o2, b2), hmem3, rfl⟩)
      rw [genesis_foldl_absent stable_hash num_shards shard rest _ id hrest]
      by_cases hc : AuthorityState.get_shard stable_hash num_shards id = shard
      · simp [genesisStep, hc, AccountsMap.insert]
      · simp [genesisStep, hc]
    · have hidmap : id ∈ rest.map Prod.fst :=
        List.mem_map.mpr ⟨(id, o, b), hmem2, rfl⟩
      have hne : eid ≠ id := by
        intro hq
        apply hnd'.1
        rw [hq]
        exact hidmap
      rw [ih _ id o b hnd'.2 hmem2]
      by_cases hc : AuthorityState.get_shard stable_hash num_shards eid ≠ shard
      · simp [genesisStep, hc]
      · simp [genesisStep, hc, AccountsMap.insert, Ne.symm hne]

/-- C6: when the genesis ids are distinct, the shard server built by
`make_shard_server` for shard `k` holds exactly the config entries routed to
`k` by `AuthorityState::get_shard`, each initialized as
`AccountState::new(owner, balance)`, entries of other shards being skipped;
and `make_servers` creates one such server for every shard
`0 .. num_shards`. -/
theorem make_shard_server_genesis (ι α : Type) [DecidableEq ι]
    (stable_hash : ι → Nat) (num_shards shard : Nat)
    (accounts : List (ι × α × Int)) (hnd : (accounts.map Prod.fst).Nodup) :
    (∀ id o b, (id, o, b) ∈ accounts →
      (make_shard_server stable_hash num_shards shard accounts).accounts id =
        (if AuthorityState.get_shard stable_hash num_shards id = shard
          then some (AccountState.new o b) else none))
    ∧ (∀ id, (∀ o b, (id, o, b) ∉ accounts) →
      (make_shard_server stable_hash num_shards shard accounts).accounts id = none)
    ∧ (make_servers stable_hash num_shards accounts).length = num_shards
    ∧ (∀ k, k < num_shards →
      (make_servers stable_hash num_shards accounts)[k]? =
        some (make_shard_server stable_hash num_shards k accounts)) := by
  refine ⟨?_, ?_, ?_, ?_⟩
  · intro id o b hmem
    exact genesis_foldl_mem stable_hash num_shards shard accounts
      (AccountsMap.empty ι α) id o b hnd hmem
  · intro id habs
    exact genesis_foldl_absent stable_hash num_shards shard accounts
      (AccountsMap.empty ι α) id habs
  · simp [make_servers]
  · intro k hk
    simp [make_servers, List.getElem?_range hk]

/-- Witness for `make_shard_server_genesis` on a two-shard authority with
two genesis accounts and the identity stable hash: account id 1 is routed to
shard 1 and initialized there, and two servers are created. -/
theorem make_shard_server_genesis_witness :
    (([((0 : Nat), (10 : Nat), (5 : Int)), (1, 11, 7)].map Prod.fst).Nodup)
    ∧ (make_shard_server (fun n : Nat => n) 2 1
        [((0 : Nat), (10 : Nat), (5 : Int)), (1, 11, 7)]).accounts 1
        = some (AccountState.new 11 7)
    ∧ (make_servers (fun n : Nat => n) 2
        [((0 : Nat), (10 : Nat), (5 : Int)), (1, 11, 7)]).length = 2 := by
  have h := make_shard_server_genesis Nat Nat (fun n => n) 2 1
    [((0 : Nat), (10 : Nat), (5 : Int)), (1, 11, 7)] (by decide)
  refine ⟨by decide, ?_, h.2.2.1⟩
  have h2 := h.1 1 11 7 (by simp)
  rw [h2]
  simp [AuthorityState.get_shard]
